import Mathlib

/-!
Verification of the WMIBO solution validator (validate_wmibo_solution.py).

This file gives a shallow embedding of the validator: Python floats are
modelled as rationals (ℚ), Python dicts as functions into `Option`, the
in-place `errs.append` accumulation as explicit list concatenation, and
exceptions raised during instance parsing as `Except String`.  The not-a-number
value produced by a missing objective variable is modelled by `none` in
`Option ℚ`.  Diagnostic messages keep the wording of the source; numeric
rendering uses `toString` in place of Python float formatting and the
quote characters around identifiers are dropped, neither of which any
property below depends on.
-/

namespace WMIBOV

/-- The huge-but-finite bound used by the source for `free` variables
(`INF = 1e300`). -/
def INF : ℚ := 10 ^ 300

/-- Model of Python `str.startswith`: character-list prefix test. -/
def strStartsWith (s p : String) : Bool :=
  p.data.isPrefixOf s.data

/-- Whitespace-run tokenizer over a character list (structural, so that
concrete inputs evaluate inside the kernel). -/
def wsTokens : List Char → List String
  | [] => []
  | c :: rest =>
      let ts := wsTokens rest
      if c.isWhitespace then ts
      else
        match rest with
        | [] => [⟨[c]⟩]
        | d :: _ =>
            if d.isWhitespace then ⟨[c]⟩ :: ts
            else
              match ts with
              | t :: more => ⟨c :: t.data⟩ :: more
              | [] => [⟨[c]⟩]

/-- Model of Python `str.split()` with no arguments: split on whitespace
runs, dropping empty pieces. -/
def splitWs (s : String) : List String :=
  wsTokens s.data

/-- Model of Python `str.strip()`: drop leading and trailing whitespace. -/
def pyStrip (s : String) : String :=
  ⟨((s.data.dropWhile Char.isWhitespace).reverse.dropWhile Char.isWhitespace).reverse⟩

/-- Line splitter at newline characters (structural model of splitting
text into lines). -/
def splitNL : List Char → List String
  | [] => [""]
  | c :: rest =>
      let ts := splitNL rest
      if c = '\n' then "" :: ts
      else
        match ts with
        | t :: more => ⟨c :: t.data⟩ :: more
        | [] => [⟨[c]⟩]

/-- Decimal digits to a natural number, most significant first. -/
def digitsToNat : List Char → ℕ → ℕ
  | [], acc => acc
  | c :: rest, acc => digitsToNat rest (acc * 10 + (c.toNat - ('0').toNat))

/-- Model of Python `int(str)`: an optional sign followed by a nonempty
digit string; anything else raises (`none`). -/
def parseIntPy (s : String) : Option ℤ :=
  match s.data with
  | '-' :: rest =>
      if !rest.isEmpty && rest.all Char.isDigit then some (-(digitsToNat rest 0 : ℤ))
      else none
  | '+' :: rest =>
      if !rest.isEmpty && rest.all Char.isDigit then some ((digitsToNat rest 0 : ℤ))
      else none
  | l =>
      if !l.isEmpty && l.all Char.isDigit then some ((digitsToNat l 0 : ℤ))
      else none

/-- One token step for `splitMaxsplit2`: the leading non-whitespace run and
the rest. -/
def takeTok (l : List Char) : String × List Char :=
  (⟨l.takeWhile (fun c => !c.isWhitespace)⟩, l.dropWhile (fun c => !c.isWhitespace))

/-- Model of Python `str.split(maxsplit=2)`: at most two splits; the third
piece is the remainder of the string after the separating whitespace. -/
def splitMaxsplit2 (s : String) : List String :=
  let l0 := s.data.dropWhile Char.isWhitespace
  if l0 = [] then []
  else
    let t1 := takeTok l0
    let l1 := t1.2.dropWhile Char.isWhitespace
    if l1 = [] then [t1.1]
    else
      let t2 := takeTok l1
      let l2 := t2.2.dropWhile Char.isWhitespace
      if l2 = [] then [t1.1, t2.1] else [t1.1, t2.1, ⟨l2⟩]

/-- Model of Python `tok.split("=", 1)` on a token known to contain `=`:
the part before the first `=` and the part after it. -/
def splitEq1 (s : String) : String × String :=
  (⟨s.data.takeWhile (fun c => c ≠ '=')⟩, ⟨(s.data.dropWhile (fun c => c ≠ '=')).drop 1⟩)

/-- Pointwise update of a dictionary modelled as a function into `Option`
(Python `d[k] = v`). -/
def updateFn {α β : Type} [DecidableEq α] (m : α → Option β) (k : α) (v : β) :
    α → Option β :=
  fun x => if x = k then some v else m x

/-- The index list `[1, …, n]` of Python `range(1, n + 1)`. -/
def range1 (n : ℕ) : List ℕ :=
  (List.range n).map (· + 1)

/-! ## Data structures (source lines 34-72) -/

/-- `VarDecl` (source lines 34-41). -/
structure VarDecl where
  kind : String
  idx : ℤ
  lo : ℚ
  hi : ℚ
  free : Bool := false
  binary : Bool := false
deriving DecidableEq

/-- `Clause` (source lines 43-47): hardness flag, weight, literal list;
a literal is a boolean-variable index with a negation flag. -/
structure Clause where
  hard : Bool
  weight : ℤ
  lits : List (ℕ × Bool)
deriving DecidableEq

/-- `LinConstr` (source lines 49-54). -/
structure LinConstr where
  cid : String
  sense : String
  rhs : ℚ
  terms : List (ℚ × String × ℤ)
deriving DecidableEq

/-- `IndicatorVal` (source line 56): a guarding literal `(bi, neg)` or the
`("CONFLICT",)` sentinel, as an explicit sum. -/
inductive IndicatorVal where
  | lit : ℕ → Bool → IndicatorVal
  | conflict : IndicatorVal
deriving DecidableEq

/-- `WMIBO` (source lines 58-72).  The dicts `vars`, `ind` and `opts` are
modelled as functions into `Option`; `lin` keeps Python dict insertion
order as an association list. -/
structure WMIBO where
  B : ℕ
  I : ℕ
  R : ℕ
  vars : String × ℤ → Option VarDecl
  cnf_hard : List Clause
  cnf_soft : List Clause
  wcnf_hard : List Clause
  wcnf_soft : List Clause
  lin : List (String × LinConstr)
  ind : String → Option IndicatorVal
  obj_sense : Option String
  obj_terms : List (ℚ × String × ℤ)
  opts : String → Option ℚ

/-- `Solution` (source lines 276-280). -/
structure Solution where
  status : Option String
  reported_obj : Option ℚ
  model : String → Option ℚ

/-! ## Evaluation (source lines 312-351) -/

/-- `get_model_value` (source lines 312-313): look up token `kind ++ idx`. -/
def get_model_value (sol : Solution) (kind : String) (idx : ℤ) : Option ℚ :=
  sol.model (kind ++ toString idx)

/-- `lit_value` (source lines 315-320): round the boolean variable at
threshold 0.5, then apply the negation flag; `none` when the variable is
absent from the assignment. -/
def lit_value (sol : Solution) (bi : ℕ) (neg : Bool) : Option ℕ :=
  match get_model_value sol "b" (bi : ℤ) with
  | none => none
  | some v =>
      let b : ℕ := if (1 : ℚ) / 2 ≤ v then 1 else 0
      some (if neg then 1 - b else b)

/-- The literal loop of `clause_satisfied` (source lines 323-329):
`none` at the first absent variable, `some true` at the first true literal,
`some false` when the list is exhausted. -/
def clauseSatAux (sol : Solution) : List (ℕ × Bool) → Option Bool
  | [] => some false
  | (bi, neg) :: rest =>
      match lit_value sol bi neg with
      | none => none
      | some t => if t = 1 then some true else clauseSatAux sol rest

/-- `clause_satisfied` (source lines 322-329). -/
def clause_satisfied (sol : Solution) (cl : Clause) : Option Bool :=
  clauseSatAux sol cl.lits

/-- The accumulator loop of `eval_lin` (source lines 331-338). -/
def evalLinAux (sol : Solution) (acc : ℚ) : List (ℚ × String × ℤ) → Option ℚ
  | [] => some acc
  | (coef, kind, idx) :: rest =>
      match get_model_value sol kind idx with
      | none => none
      | some v => evalLinAux sol (acc + coef * v) rest

/-- `eval_lin` (source lines 331-338): `none` when any referenced variable
is absent. -/
def eval_lin (sol : Solution) (terms : List (ℚ × String × ℤ)) : Option ℚ :=
  evalLinAux sol 0 terms

/-- Message of the conflicting-indicators diagnostic (source line 346). -/
def msgConflictInd (cid : String) : String :=
  "conflicting indicators for constraint " ++ cid

/-- Message of the missing-indicator-variable diagnostic (source line 350). -/
def msgMissingInd (bi : ℕ) (cid : String) : String :=
  "missing indicator variable b" ++ (toString bi ++ (" for constraint " ++ cid))

/-- `is_active_constraint` (source lines 340-351): returns
(active?, error message if any). -/
def is_active_constraint (w : WMIBO) (sol : Solution) (cid : String) :
    Bool × Option String :=
  match w.ind cid with
  | none => (true, none)
  | some IndicatorVal.conflict => (false, some (msgConflictInd cid))
  | some (IndicatorVal.lit bi neg) =>
      match lit_value sol bi neg with
      | none => (false, some (msgMissingInd bi cid))
      | some t => (decide (t = 1), none)

end WMIBOV

namespace WMIBOV

/-! ## Diagnostic messages of `validate` (source lines 353-503).
Numeric rendering uses `toString`; the wording and prefixes are the
source's. -/

/-- Source lines 362, 370, 385. -/
def msgMissingAssign (kindTok : String) (k : ℕ) : String :=
  "missing assignment: " ++ (kindTok ++ toString k)

/-- Source line 365. -/
def msgNotBool (k : ℕ) (v : ℚ) : String :=
  "b" ++ (toString k ++ (" not boolean (0/1): " ++ toString v))

/-- Source line 373. -/
def msgNotIntegral (k : ℕ) (t v : ℚ) : String :=
  "i" ++ (toString k ++ (" not integral within int_tol=" ++ (toString t ++ (": " ++ toString v))))

/-- Source line 377. -/
def msgIntBounds (k : ℕ) (lo hi v : ℚ) : String :=
  "i" ++ (toString k ++ (" out of bounds [" ++ (toString lo ++ ("," ++ (toString hi ++ ("]: " ++ toString v))))))

/-- Source line 380. -/
def msgIntWarn (k : ℕ) : String :=
  "warning: i" ++ (toString k ++ (" has no var i " ++ (toString k ++ " ... declaration; skipping bounds check")))

/-- Source line 390. -/
def msgRealBounds (k : ℕ) (lo hi ft v : ℚ) : String :=
  "r" ++ (toString k ++ (" out of bounds [" ++ (toString lo ++ ("," ++ (toString hi ++ ("] (feas_tol=" ++ (toString ft ++ ("): " ++ toString v))))))))

/-- Source line 392. -/
def msgRealWarn (k : ℕ) : String :=
  "warning: r" ++ (toString k ++ (" has no var r " ++ (toString k ++ " ... declaration; skipping bounds check")))

/-- Source lines 398, 405. -/
def msgHardMissing (name : String) (j : ℕ) : String :=
  "hard " ++ (name ++ (" clause #" ++ (toString j ++ ": missing bool var")))

/-- Source lines 400, 407. -/
def msgHardViolated (name : String) (j : ℕ) : String :=
  "hard " ++ (name ++ (" clause #" ++ (toString j ++ " violated")))

/-- Source lines 416, 425. -/
def msgSoftMissing (name : String) (j : ℕ) : String :=
  "soft " ++ (name ++ (" clause #" ++ (toString j ++ ": missing bool var")))

/-- Source line 443. -/
def msgLinMissing (cid : String) : String :=
  "linear constraint " ++ (cid ++ ": missing variable value")

/-- Source lines 448, 451, 454. -/
def msgLinViolated (cid sense : String) (lhs rhs ft : ℚ) : String :=
  "linear " ++ (cid ++ (" violated: lhs=" ++ (toString lhs ++ (" " ++ (sense ++ (" rhs=" ++ (toString rhs ++ (" (tol=" ++ (toString ft ++ ")")))))))))

/-- Source line 459. -/
def msgObjMissing : String :=
  "objective: missing variable value in linear objective"

/-- Source line 494. -/
def msgMismatch (rep : ℚ) (bn : String) (bv : ℚ) : String :=
  "objective mismatch: reported o=" ++ (toString rep ++ (" best_match(" ++ (bn ++ (")=" ++ (toString bv ++ (" |err|=" ++ (toString |bv - rep| ++ " > 1e-06")))))))

/-! ## The phases of `validate` (source lines 353-503) -/

/-- Boolean-variable domain check (source lines 359-365). -/
def boolCheck (sol : Solution) (k : ℕ) : List String :=
  match get_model_value sol "b" (k : ℤ) with
  | none => [msgMissingAssign "b" k]
  | some v =>
      if ¬(|v - 0| ≤ (1 : ℚ) / 10 ^ 9 ∨ |v - 1| ≤ (1 : ℚ) / 10 ^ 9) then [msgNotBool k v]
      else []

/-- Integer-variable domain check (source lines 367-380).  Python `round`
rounds half to even while Mathlib `round` rounds half up; the distance
`|v - round v|` to the nearest integer is the same under either
tie-break, so the emitted diagnostics agree. -/
def intCheck (w : WMIBO) (int_tol : ℚ) (sol : Solution) (k : ℕ) : List String :=
  match get_model_value sol "i" (k : ℤ) with
  | none => [msgMissingAssign "i" k]
  | some v =>
      (if |v - (round v : ℚ)| > int_tol then [msgNotIntegral k int_tol v] else []) ++
      (match w.vars ("i", (k : ℤ)) with
       | some decl =>
           if v < decl.lo - int_tol ∨ v > decl.hi + int_tol then [msgIntBounds k decl.lo decl.hi v]
           else []
       | none => [msgIntWarn k])

/-- Real-variable domain check (source lines 382-392). -/
def realCheck (w : WMIBO) (feas_tol : ℚ) (sol : Solution) (k : ℕ) : List String :=
  match get_model_value sol "r" (k : ℤ) with
  | none => [msgMissingAssign "r" k]
  | some v =>
      match w.vars ("r", (k : ℤ)) with
      | some decl =>
          if decl.free = false then
            if v < decl.lo - feas_tol ∨ v > decl.hi + feas_tol then
              [msgRealBounds k decl.lo decl.hi feas_tol v]
            else []
          else []
      | none => [msgRealWarn k]

/-- Hard-clause loop (source lines 395-407), with 1-based position `j`. -/
def hardErrsAux (name : String) (sol : Solution) : ℕ → List Clause → List String
  | _, [] => []
  | j, cl :: rest =>
      (match clause_satisfied sol cl with
       | none => [msgHardMissing name j]
       | some false => [msgHardViolated name j]
       | some true => []) ++ hardErrsAux name sol (j + 1) rest

/-- Soft-clause loop (source lines 410-429): accumulated penalty, violated
count and the missing-variable diagnostics. `wt` is the contribution of a
violated clause: 1 for the unweighted cnf block, the clause weight for
the wcnf block. -/
def softAux (name : String) (sol : Solution) (wt : Clause → ℚ) :
    ℕ → List Clause → ℚ × ℕ × List String
  | _, [] => (0, 0, [])
  | j, cl :: rest =>
      let r := softAux name sol wt (j + 1) rest
      match clause_satisfied sol cl with
      | none => (r.1, r.2.1, msgSoftMissing name j :: r.2.2)
      | some false => (r.1 + wt cl, r.2.1 + 1, r.2.2)
      | some true => r

/-- The numeric check of one active linear constraint
(source lines 441-454). -/
def linBodyErrs (feas_tol : ℚ) (sol : Solution) (lc : LinConstr) : List String :=
  match eval_lin sol lc.terms with
  | none => [msgLinMissing lc.cid]
  | some lhs =>
      if lc.sense = "<=" then
        if lhs > lc.rhs + feas_tol then [msgLinViolated lc.cid "<=" lhs lc.rhs feas_tol] else []
      else if lc.sense = ">=" then
        if lhs < lc.rhs - feas_tol then [msgLinViolated lc.cid ">=" lhs lc.rhs feas_tol] else []
      else
        if |lhs - lc.rhs| > feas_tol then [msgLinViolated lc.cid "=" lhs lc.rhs feas_tol] else []

/-- The body of the linear-constraint loop for one constraint
(source lines 432-454): record the indicator error if any, otherwise
check the constraint exactly when it is active. -/
def checkLinConstr (w : WMIBO) (feas_tol : ℚ) (sol : Solution) (cid : String)
    (lc : LinConstr) : List String :=
  match (is_active_constraint w sol cid).2 with
  | some e => [e]
  | none => if (is_active_constraint w sol cid).1 then linBodyErrs feas_tol sol lc else []

/-- The linear-constraint loop (source lines 432-454). -/
def linConstrErrs (w : WMIBO) (feas_tol : ℚ) (sol : Solution) :
    List (String × LinConstr) → List String
  | [] => []
  | (cid, lc) :: rest => checkLinConstr w feas_tol sol cid lc ++ linConstrErrs w feas_tol sol rest

/-- `min(candidates, key=lambda k: abs(candidates[k] - reported))`
(source line 487): first minimum wins on ties, as in Python `min`. -/
def minByAbsErr (rep : ℚ) : String × ℚ → List (String × ℚ) → String × ℚ
  | best, [] => best
  | best, c :: rest => minByAbsErr rep (if |c.2 - rep| < |best.2 - rep| then c else best) rest

/-- `w.opts.get("feas_tol", 1e-8)` (source line 355). -/
def feasTolOf (w : WMIBO) : ℚ := (w.opts "feas_tol").getD ((1 : ℚ) / 10 ^ 8)

/-- `w.opts.get("int_tol", 1e-6)` (source line 356). -/
def intTolOf (w : WMIBO) : ℚ := (w.opts "int_tol").getD ((1 : ℚ) / 10 ^ 6)

/-- The domain-check phase (source lines 359-392). -/
def domErrsOf (w : WMIBO) (sol : Solution) : List String :=
  (range1 w.B).flatMap (boolCheck sol) ++
    ((range1 w.I).flatMap (intCheck w (intTolOf w) sol) ++
      (range1 w.R).flatMap (realCheck w (feasTolOf w) sol))

/-- The hard-clause phase (source lines 395-407). -/
def hardErrsOf (w : WMIBO) (sol : Solution) : List String :=
  hardErrsAux "CNF" sol 1 w.cnf_hard ++ hardErrsAux "WCNF" sol 1 w.wcnf_hard

/-- The unweighted soft-clause loop (source lines 413-420): a violated
clause contributes penalty 1. -/
def softCNF (sol : Solution) (cls : List Clause) : ℚ × ℕ × List String :=
  softAux "CNF" sol (fun _ => 1) 1 cls

/-- The weighted soft-clause loop (source lines 422-429): a violated
clause contributes its weight. -/
def softWCNF (sol : Solution) (cls : List Clause) : ℚ × ℕ × List String :=
  softAux "WCNF" sol (fun cl => (cl.weight : ℚ)) 1 cls

/-- Total penalty `P` (source lines 410-429). -/
def penaltyOf (w : WMIBO) (sol : Solution) : ℚ :=
  (softCNF sol w.cnf_soft).1 + (softWCNF sol w.wcnf_soft).1

/-- Violated-soft-clause count (source lines 410-429). -/
def softViolationsOf (w : WMIBO) (sol : Solution) : ℕ :=
  (softCNF sol w.cnf_soft).2.1 + (softWCNF sol w.wcnf_soft).2.1

/-- Diagnostics of the soft-clause loops (source lines 416, 425). -/
def softErrsOf (w : WMIBO) (sol : Solution) : List String :=
  (softCNF sol w.cnf_soft).2.2 ++ (softWCNF sol w.wcnf_soft).2.2

/-- Diagnostics of the linear-constraint loop (source lines 432-454). -/
def linErrsOf (w : WMIBO) (sol : Solution) : List String :=
  linConstrErrs w (feasTolOf w) sol w.lin

/-- `lin_obj` (source line 457): evaluated linear objective, 0 when there
are no objective terms; `none` models the NaN set at source line 460. -/
def linObjOf (w : WMIBO) (sol : Solution) : Option ℚ :=
  if w.obj_terms.isEmpty then some 0 else eval_lin sol w.obj_terms

/-- The missing-objective-variable diagnostic (source lines 458-460). -/
def objErrsOf (w : WMIBO) (sol : Solution) : List String :=
  match linObjOf w sol with
  | none => [msgObjMissing]
  | some _ => []

/-- `total_min = lin_obj + penalty` (source line 464). -/
def totalMinOf (w : WMIBO) (sol : Solution) : Option ℚ :=
  (linObjOf w sol).map (fun L => L + penaltyOf w sol)

/-- `total_internal` (source line 465): `total_min` unless the declared
sense is max, in which case `-lin_obj + penalty`. -/
def totalInternalOf (w : WMIBO) (sol : Solution) : Option ℚ :=
  if w.obj_sense = some "max" then (linObjOf w sol).map (fun L => -L + penaltyOf w sol)
  else totalMinOf w sol

/-- `total_max_original = lin_obj - penalty` (source line 468). -/
def totalMaxOrigOf (w : WMIBO) (sol : Solution) : Option ℚ :=
  (linObjOf w sol).map (fun L => L - penaltyOf w sol)

/-- `tol_obj = 1e-6` (source line 481). -/
def tolObj : ℚ := (1 : ℚ) / 10 ^ 6

/-- The candidate closest to the reported value (source lines 482-488),
candidates in dict insertion order. -/
def bestOf (rep tm ti tmo : ℚ) : String × ℚ :=
  minByAbsErr rep ("total_min", tm) [("total_internal", ti), ("total_max_original", tmo)]

/-- The objective-mismatch diagnostic (source lines 480-494): emitted only
when a reported value is present and the best candidate misses it by more
than `tolObj`.  When the candidates are NaN (`none`) the Python comparison
`nan > tol_obj` is false, so nothing is emitted. -/
def mismatchErrsOf (w : WMIBO) (sol : Solution) : List String :=
  match sol.reported_obj with
  | none => []
  | some rep =>
      match totalMinOf w sol, totalInternalOf w sol, totalMaxOrigOf w sol with
      | some tm, some ti, some tmo =>
          if |(bestOf rep tm ti tmo).2 - rep| > tolObj then
            [msgMismatch rep (bestOf rep tm ti tmo).1 (bestOf rep tm ti tmo).2]
          else []
      | _, _, _ => []

/-- The `stats` dict (source lines 470-492); the reported/best keys are
`none` when absent from the dict, and a `none` numeric value models NaN. -/
structure Stats where
  penalty : ℚ
  soft_violations : ℕ
  lin_obj : Option ℚ
  total_min : Option ℚ
  total_internal : Option ℚ
  total_max_original : Option ℚ
  reported_obj : Option ℚ
  best_match : Option String
  best_match_value : Option ℚ
  best_abs_error : Option ℚ

/-- The reported/best stats entries (source lines 480-492).  With a
reported value but NaN candidates, Python `min` keeps the first candidate
`total_min` (`nan < nan` is false) and the value and error entries are
NaN. -/
def bestFieldsOf (w : WMIBO) (sol : Solution) :
    Option ℚ × Option String × Option ℚ × Option ℚ :=
  match sol.reported_obj with
  | none => (none, none, none, none)
  | some rep =>
      match totalMinOf w sol, totalInternalOf w sol, totalMaxOrigOf w sol with
      | some tm, some ti, some tmo =>
          (some rep, some (bestOf rep tm ti tmo).1, some (bestOf rep tm ti tmo).2,
            some |(bestOf rep tm ti tmo).2 - rep|)
      | _, _, _ => (some rep, some "total_min", none, none)

/-- All diagnostics of one validation run, in emission order
(source lines 354-494). -/
def validateErrs (w : WMIBO) (sol : Solution) : List String :=
  domErrsOf w sol ++
    (hardErrsOf w sol ++
      (softErrsOf w sol ++
        (linErrsOf w sol ++ (objErrsOf w sol ++ mismatchErrsOf w sol))))

/-- The `stats` result of `validate` (source lines 470-492). -/
def validateStats (w : WMIBO) (sol : Solution) : Stats :=
  { penalty := penaltyOf w sol
    soft_violations := softViolationsOf w sol
    lin_obj := linObjOf w sol
    total_min := totalMinOf w sol
    total_internal := totalInternalOf w sol
    total_max_original := totalMaxOrigOf w sol
    reported_obj := (bestFieldsOf w sol).1
    best_match := (bestFieldsOf w sol).2.1
    best_match_value := (bestFieldsOf w sol).2.2.1
    best_abs_error := (bestFieldsOf w sol).2.2.2 }

/-- A diagnostic is fatal unless it carries the warning prefix
(source line 500). -/
def isFatal (e : String) : Bool := !(strStartsWith e "warning:")

/-- `validate` (source lines 353-503): the controlling `ok` is the final
fatal-count check of source lines 500-501. -/
def validate (w : WMIBO) (sol : Solution) : Bool × List String × Stats :=
  (((validateErrs w sol).filter isFatal).isEmpty, validateErrs w sol, validateStats w sol)

end WMIBOV

namespace WMIBOV

/-! ## Instance-parser steps (source lines 108-272) -/

/-- One `ind` block line (source lines 235-238): bind `lit` to `cid`; a
second binding with a different value downgrades the entry to the conflict
sentinel. -/
def indBind (m : String → Option IndicatorVal) (lit : ℕ × Bool) (cid : String) :
    String → Option IndicatorVal :=
  match m cid with
  | some v =>
      if v ≠ IndicatorVal.lit lit.1 lit.2 then updateFn m cid IndicatorVal.conflict
      else updateFn m cid (IndicatorVal.lit lit.1 lit.2)
  | none => updateFn m cid (IndicatorVal.lit lit.1 lit.2)

/-- The `ind` block as a whole: the parser folds `indBind` over the
declarations `(literal, constraint id)` in file order (source lines
229-238). -/
def indFold (m : String → Option IndicatorVal) (entries : List ((ℕ × Bool) × String)) :
    String → Option IndicatorVal :=
  entries.foldl (fun acc e => indBind acc e.1 e.2) m

/-- One `opt` line (source lines 152-159): `line.split(maxsplit=2)` is
unpacked into three names — fewer pieces raise, a non-numeric value is
ignored.  `pf` models the Python `float` conversion, `none` meaning it
raises `ValueError`. -/
def optStep (pf : String → Option ℚ) (opts : String → Option ℚ) (line : String) :
    Except String (String → Option ℚ) :=
  match splitMaxsplit2 line with
  | [_, k, v] =>
      match pf v with
      | some x => Except.ok (updateFn opts k x)
      | none => Except.ok opts
  | _ => Except.error "not enough values to unpack"

/-- `parse_bounds` (source lines 102-106): the pattern requires a leading
bracket, a trailing bracket and a comma between them; the first group is
non-greedy, so the split is at the first comma. -/
def parse_bounds (pf : String → Option ℚ) (tok : String) : Except String (ℚ × ℚ) :=
  match tok.data with
  | [] => Except.error ("bad bounds: " ++ tok)
  | c :: rest =>
      if c == '[' && rest.getLast? == some ']' && rest.dropLast.contains ',' then
        let inner := rest.dropLast
        match pf ⟨inner.takeWhile (fun ch => ch ≠ ',')⟩,
            pf ⟨(inner.dropWhile (fun ch => ch ≠ ',')).drop 1⟩ with
        | some lo, some hi => Except.ok (lo, hi)
        | _, _ => Except.error "could not convert string to float"
      else Except.error ("bad bounds: " ++ tok)

/-- The declaration built from a `var` line spec token (source lines
168-174): `bin`, `free` or a bracketed bound pair. -/
def mkDecl (pf : String → Option ℚ) (kind : String) (idx : ℤ) (spec : String) :
    Except String VarDecl :=
  if spec = "bin" then
    Except.ok { kind := kind, idx := idx, lo := 0, hi := 1, binary := true }
  else if spec = "free" then
    Except.ok { kind := kind, idx := idx, lo := -INF, hi := INF, free := true }
  else
    match parse_bounds pf spec with
    | Except.ok lohi => Except.ok { kind := kind, idx := idx, lo := lohi.1, hi := lohi.2 }
    | Except.error e => Except.error e

/-- One `var` line (source lines 161-175): fewer than four tokens raise,
`int(parts[2])` is modelled by `parseIntPy`, and the declaration is
stored at `(kind, idx)` with no duplicate check. -/
def varStep (pf : String → Option ℚ) (vars : String × ℤ → Option VarDecl)
    (line : String) : Except String (String × ℤ → Option VarDecl) :=
  match splitWs line with
  | _ :: kind :: idxTok :: spec :: _ =>
      match parseIntPy idxTok with
      | none => Except.error "invalid literal for int"
      | some idx =>
          match mkDecl pf kind idx spec with
          | Except.ok d => Except.ok (updateFn vars (kind, idx) d)
          | Except.error e => Except.error e
  | _ => Except.error ("bad var line: " ++ line)

/-- Insertion of a parsed `lc` line into the constraint dict (source lines
224-226): a duplicate id is a fatal parse error. -/
def lcInsert (lin : List (String × LinConstr)) (lc : LinConstr) :
    Except String (List (String × LinConstr)) :=
  if lin.any (fun p => p.1 = lc.cid) then
    Except.error ("duplicate linear constraint id: " ++ lc.cid)
  else Except.ok (lin ++ [(lc.cid, lc)])

/-! ## Solution parser (source lines 282-308) -/

/-- The token loop of a `v` line (source lines 299-306): a token without
`=` is skipped, a token whose value does not convert is skipped, a
convertible token overwrites the model entry for its variable. -/
def vTokens (pf : String → Option ℚ) (m : String → Option ℚ) :
    List String → String → Option ℚ
  | [] => m
  | tok :: rest =>
      if tok.data.contains '=' = false then vTokens pf m rest
      else
        match pf (splitEq1 tok).2 with
        | some x => vTokens pf (updateFn m (splitEq1 tok).1 x) rest
        | none => vTokens pf m rest

/-- One line of solver output (source lines 287-306). -/
def solStep (pf : String → Option ℚ) (st : Solution) (raw : String) : Solution :=
  let line := pyStrip raw
  if line = "" then st
  else if strStartsWith line "s " then { st with status := some (pyStrip ⟨line.data.drop 2⟩) }
  else if strStartsWith line "o " then
    match (splitWs line).get? 1 with
    | some tok =>
        match pf tok with
        | some x => { st with reported_obj := some x }
        | none => st
    | none => st
  else if strStartsWith line "v " then
    { st with model := vTokens pf st.model ((splitWs line).drop 1) }
  else st

/-- `parse_solution_text` (source lines 282-308): a total function — every
conversion failure is swallowed, so no solution text can make it raise. -/
def parse_solution_text (pf : String → Option ℚ) (text : String) : Solution :=
  (splitNL text.data).foldl (solStep pf)
    { status := none, reported_obj := none, model := fun _ => none }

end WMIBOV

namespace WMIBOV

/-! ## String helper lemmas: classifying diagnostics by their prefix -/

lemma isPrefixOf_append_left {p a : List Char} (b : List Char)
    (h : p.isPrefixOf a = true) : p.isPrefixOf (a ++ b) = true := by
  induction p generalizing a with
  | nil => simp [List.isPrefixOf]
  | cons c cs ih =>
    cases a with
    | nil => simp [List.isPrefixOf] at h
    | cons d ds =>
      simp only [List.cons_append, List.isPrefixOf, Bool.and_eq_true, beq_iff_eq] at h ⊢
      exact ⟨h.1, ih h.2⟩

lemma strStartsWith_append (a s p : String) (h : strStartsWith a p = true) :
    strStartsWith (a ++ s) p = true := by
  unfold strStartsWith at h ⊢
  rw [String.data_append]
  exact isPrefixOf_append_left _ h

lemma not_startsWith_of_head {e p : String} {c d : Char}
    (he : e.data.head? = some c) (hp : p.data.head? = some d) (hne : c ≠ d) :
    strStartsWith e p = false := by
  unfold strStartsWith
  cases hE : e.data with
  | nil => rw [hE] at he; cases he
  | cons x xs =>
    cases hP : p.data with
    | nil => rw [hP] at hp; cases hp
    | cons y ys =>
      rw [hE] at he
      rw [hP] at hp
      simp only [List.head?_cons, Option.some.injEq] at he hp
      subst he
      subst hp
      simp only [List.isPrefixOf, Bool.and_eq_false_iff]
      left
      simp only [beq_eq_false_iff_ne, ne_eq]
      intro h
      exact hne h.symm

lemma head_append {a : String} (s : String) {c : Char} (h : a.data.head? = some c) :
    (a ++ s).data.head? = some c := by
  rw [String.data_append]
  cases ha : a.data with
  | nil => rw [ha] at h; cases h
  | cons x xs =>
    rw [ha] at h
    simp only [List.head?_cons, Option.some.injEq] at h
    simp [h]

lemma head_msgMissingAssign (kindTok : String) (k : ℕ) :
    (msgMissingAssign kindTok k).data.head? = some 'm' := head_append _ rfl

lemma head_msgNotBool (k : ℕ) (v : ℚ) : (msgNotBool k v).data.head? = some 'b' :=
  head_append _ rfl

lemma head_msgNotIntegral (k : ℕ) (t v : ℚ) :
    (msgNotIntegral k t v).data.head? = some 'i' := head_append _ rfl

lemma head_msgIntBounds (k : ℕ) (lo hi v : ℚ) :
    (msgIntBounds k lo hi v).data.head? = some 'i' := head_append _ rfl

lemma head_msgIntWarn (k : ℕ) : (msgIntWarn k).data.head? = some 'w' :=
  head_append _ rfl

lemma head_msgRealBounds (k : ℕ) (lo hi ft v : ℚ) :
    (msgRealBounds k lo hi ft v).data.head? = some 'r' := head_append _ rfl

lemma head_msgRealWarn (k : ℕ) : (msgRealWarn k).data.head? = some 'w' :=
  head_append _ rfl

lemma head_msgHardMissing (name : String) (j : ℕ) :
    (msgHardMissing name j).data.head? = some 'h' := head_append _ rfl

lemma head_msgHardViolated (name : String) (j : ℕ) :
    (msgHardViolated name j).data.head? = some 'h' := head_append _ rfl

lemma head_msgSoftMissing (name : String) (j : ℕ) :
    (msgSoftMissing name j).data.head? = some 's' := head_append _ rfl

lemma head_msgConflictInd (cid : String) :
    (msgConflictInd cid).data.head? = some 'c' := head_append _ rfl

lemma head_msgMissingInd (bi : ℕ) (cid : String) :
    (msgMissingInd bi cid).data.head? = some 'm' := head_append _ rfl

lemma head_msgLinMissing (cid : String) :
    (msgLinMissing cid).data.head? = some 'l' := head_append _ rfl

lemma head_msgLinViolated (cid sense : String) (lhs rhs ft : ℚ) :
    (msgLinViolated cid sense lhs rhs ft).data.head? = some 'l' := head_append _ rfl

lemma startsWith_msgMismatch (rep : ℚ) (bn : String) (bv : ℚ) :
    strStartsWith (msgMismatch rep bn bv) "objective mismatch" = true :=
  strStartsWith_append _ _ _ (by decide)

lemma head_msgMismatch (rep : ℚ) (bn : String) (bv : ℚ) :
    (msgMismatch rep bn bv).data.head? = some 'o' := head_append _ rfl

end WMIBOV

namespace WMIBOV

/-! ## Classification of the diagnostics each phase can emit -/

lemma notMM_of_head {e : String} {c : Char} (he : e.data.head? = some c)
    (hc : c ≠ 'o') : strStartsWith e "objective mismatch" = false :=
  not_startsWith_of_head he rfl hc

lemma notWarn_of_head {e : String} {c : Char} (he : e.data.head? = some c)
    (hc : c ≠ 'w') : strStartsWith e "warning:" = false :=
  not_startsWith_of_head he rfl hc

lemma boolCheck_notMM (sol : Solution) (k : ℕ) :
    ∀ e ∈ boolCheck sol k, strStartsWith e "objective mismatch" = false := by
  intro e he
  unfold boolCheck at he
  split at he
  · simp only [List.mem_singleton] at he
    subst he
    exact notMM_of_head (head_msgMissingAssign _ _) (by decide)
  · split at he
    · simp only [List.mem_singleton] at he
      subst he
      exact notMM_of_head (head_msgNotBool _ _) (by decide)
    · cases he

lemma intCheck_notMM (w : WMIBO) (t : ℚ) (sol : Solution) (k : ℕ) :
    ∀ e ∈ intCheck w t sol k, strStartsWith e "objective mismatch" = false := by
  intro e he
  unfold intCheck at he
  split at he
  · simp only [List.mem_singleton] at he
    subst he
    exact notMM_of_head (head_msgMissingAssign _ _) (by decide)
  · rw [List.mem_append] at he
    rcases he with he | he
    · split at he
      · simp only [List.mem_singleton] at he
        subst he
        exact notMM_of_head (head_msgNotIntegral _ _ _) (by decide)
      · cases he
    · split at he
      · split at he
        · simp only [List.mem_singleton] at he
          subst he
          exact notMM_of_head (head_msgIntBounds _ _ _ _) (by decide)
        · cases he
      · simp only [List.mem_singleton] at he
        subst he
        exact notMM_of_head (head_msgIntWarn _) (by decide)

lemma realCheck_notMM (w : WMIBO) (ft : ℚ) (sol : Solution) (k : ℕ) :
    ∀ e ∈ realCheck w ft sol k, strStartsWith e "objective mismatch" = false := by
  intro e he
  unfold realCheck at he
  split at he
  · simp only [List.mem_singleton] at he
    subst he
    exact notMM_of_head (head_msgMissingAssign _ _) (by decide)
  · split at he
    · split at he
      · split at he
        · simp only [List.mem_singleton] at he
          subst he
          exact notMM_of_head (head_msgRealBounds _ _ _ _ _) (by decide)
        · cases he
      · cases he
    · simp only [List.mem_singleton] at he
      subst he
      exact notMM_of_head (head_msgRealWarn _) (by decide)

lemma hardErrsAux_notMM (name : String) (sol : Solution) :
    ∀ (j : ℕ) (cls : List Clause), ∀ e ∈ hardErrsAux name sol j cls,
      strStartsWith e "objective mismatch" = false := by
  intro j cls
  induction cls generalizing j with
  | nil => intro e he; simp [hardErrsAux] at he
  | cons cl rest ih =>
    intro e he
    unfold hardErrsAux at he
    rw [List.mem_append] at he
    rcases he with he | he
    · split at he
      · simp only [List.mem_singleton] at he
        subst he
        exact notMM_of_head (head_msgHardMissing _ _) (by decide)
      · simp only [List.mem_singleton] at he
        subst he
        exact notMM_of_head (head_msgHardViolated _ _) (by decide)
      · cases he
    · exact ih _ _ he

lemma softAux_notMM (name : String) (sol : Solution) (wt : Clause → ℚ) :
    ∀ (j : ℕ) (cls : List Clause), ∀ e ∈ (softAux name sol wt j cls).2.2,
      strStartsWith e "objective mismatch" = false := by
  intro j cls
  induction cls generalizing j with
  | nil => intro e he; simp [softAux] at he
  | cons cl rest ih =>
    intro e he
    unfold softAux at he
    split at he
    · rcases List.mem_cons.mp he with he | he
      · subst he
        exact notMM_of_head (head_msgSoftMissing _ _) (by decide)
      · exact ih _ _ he
    · exact ih _ _ he
    · exact ih _ _ he

lemma is_active_constraint_err_head (w : WMIBO) (sol : Solution) (cid : String) :
    ∀ e, (is_active_constraint w sol cid).2 = some e →
      e.data.head? = some 'c' ∨ e.data.head? = some 'm' := by
  intro e he
  unfold is_active_constraint at he
  split at he
  · cases he
  · simp only [Option.some.injEq] at he
    subst he
    exact Or.inl (head_msgConflictInd _)
  · split at he
    · simp only [Option.some.injEq] at he
      subst he
      exact Or.inr (head_msgMissingInd _ _)
    · cases he

lemma linBodyErrs_notMM (ft : ℚ) (sol : Solution) (lc : LinConstr) :
    ∀ e ∈ linBodyErrs ft sol lc, strStartsWith e "objective mismatch" = false := by
  intro e he
  unfold linBodyErrs at he
  split at he
  · simp only [List.mem_singleton] at he
    subst he
    exact notMM_of_head (head_msgLinMissing _) (by decide)
  · split at he
    · split at he
      · simp only [List.mem_singleton] at he
        subst he
        exact notMM_of_head (head_msgLinViolated _ _ _ _ _) (by decide)
      · cases he
    · split at he
      · split at he
        · simp only [List.mem_singleton] at he
          subst he
          exact notMM_of_head (head_msgLinViolated _ _ _ _ _) (by decide)
        · cases he
      · split at he
        · simp only [List.mem_singleton] at he
          subst he
          exact notMM_of_head (head_msgLinViolated _ _ _ _ _) (by decide)
        · cases he

lemma checkLinConstr_notMM (w : WMIBO) (ft : ℚ) (sol : Solution) (cid : String)
    (lc : LinConstr) :
    ∀ e ∈ checkLinConstr w ft sol cid lc, strStartsWith e "objective mismatch" = false := by
  intro e he
  unfold checkLinConstr at he
  split at he
  · simp only [List.mem_singleton] at he
    subst he
    rcases is_active_constraint_err_head w sol cid _ (by assumption) with h | h
    · exact notMM_of_head h (by decide)
    · exact notMM_of_head h (by decide)
  · split at he
    · exact linBodyErrs_notMM ft sol lc e he
    · cases he

lemma linConstrErrs_notMM (w : WMIBO) (ft : ℚ) (sol : Solution) :
    ∀ (l : List (String × LinConstr)), ∀ e ∈ linConstrErrs w ft sol l,
      strStartsWith e "objective mismatch" = false := by
  intro l
  induction l with
  | nil => intro e he; simp [linConstrErrs] at he
  | cons p rest ih =>
    intro e he
    rw [show linConstrErrs w ft sol (p :: rest)
          = checkLinConstr w ft sol p.1 p.2 ++ linConstrErrs w ft sol rest from rfl,
        List.mem_append] at he
    rcases he with he | he
    · exact checkLinConstr_notMM w ft sol p.1 p.2 e he
    · exact ih e he

lemma objErrsOf_notMM (w : WMIBO) (sol : Solution) :
    ∀ e ∈ objErrsOf w sol, strStartsWith e "objective mismatch" = false := by
  intro e he
  unfold objErrsOf at he
  split at he
  · simp only [List.mem_singleton] at he
    subst he
    decide
  · cases he

end WMIBOV

namespace WMIBOV

/-! ## Clause-evaluation lemmas -/

lemma clauseSatAux_all_present (sol : Solution) :
    ∀ lits : List (ℕ × Bool), (∀ l ∈ lits, lit_value sol l.1 l.2 ≠ none) →
      clauseSatAux sol lits
        = some (lits.any (fun l => lit_value sol l.1 l.2 == some 1)) := by
  intro lits
  induction lits with
  | nil => intro _; simp [clauseSatAux]
  | cons l rest ih =>
    intro h
    obtain ⟨bi, neg⟩ := l
    have h1 : lit_value sol bi neg ≠ none := h _ (List.mem_cons_self _ _)
    cases ht : lit_value sol bi neg with
    | none => exact absurd ht h1
    | some t =>
      by_cases h2 : t = 1
      · subst h2
        simp [clauseSatAux, ht]
      · simp only [clauseSatAux, ht]
        rw [if_neg h2, ih (fun x hx => h x (List.mem_cons_of_mem _ hx))]
        simp [ht, h2]

lemma clauseSatAux_no_true (sol : Solution) :
    ∀ lits : List (ℕ × Bool), (∀ l ∈ lits, lit_value sol l.1 l.2 ≠ some 1) →
      clauseSatAux sol lits
        = (if ∀ l ∈ lits, lit_value sol l.1 l.2 ≠ none then some false else none) := by
  intro lits
  induction lits with
  | nil => intro _; simp [clauseSatAux]
  | cons l rest ih =>
    intro h
    obtain ⟨bi, neg⟩ := l
    have h1 : lit_value sol bi neg ≠ some 1 := h _ (List.mem_cons_self _ _)
    cases ht : lit_value sol bi neg with
    | none =>
      simp only [clauseSatAux, ht]
      rw [if_neg]
      intro hall
      exact absurd ht (hall (bi, neg) (List.mem_cons_self _ _))
    | some t =>
      have h2 : t ≠ 1 := by
        intro h2
        subst h2
        exact h1 ht
      simp only [clauseSatAux, ht]
      rw [if_neg h2, ih (fun x hx => h x (List.mem_cons_of_mem _ hx))]
      have hside : (∀ l ∈ (bi, neg) :: rest, lit_value sol l.1 l.2 ≠ none)
          ↔ (∀ l ∈ rest, lit_value sol l.1 l.2 ≠ none) := by
        rw [List.forall_mem_cons]
        constructor
        · exact fun hh => hh.2
        · intro hh
          exact ⟨by simp [ht], hh⟩
      by_cases hc : ∀ l ∈ rest, lit_value sol l.1 l.2 ≠ none
      · rw [if_pos hc, if_pos (hside.mpr hc)]
      · rw [if_neg hc, if_neg (fun hh => hc (hside.mp hh))]

/-! ## Objective-total lemmas -/

lemma totalMinOf_eq {w : WMIBO} {sol : Solution} {L : ℚ}
    (hL : linObjOf w sol = some L) :
    totalMinOf w sol = some (L + penaltyOf w sol) := by
  rw [totalMinOf, hL]
  rfl

lemma totalInternalOf_eq {w : WMIBO} {sol : Solution} {L : ℚ}
    (hL : linObjOf w sol = some L) :
    totalInternalOf w sol
      = some (if w.obj_sense = some "max" then -L + penaltyOf w sol
              else L + penaltyOf w sol) := by
  unfold totalInternalOf
  by_cases h : w.obj_sense = some "max"
  · rw [if_pos h, if_pos h, hL]
    rfl
  · rw [if_neg h, if_neg h]
    exact totalMinOf_eq hL

lemma totalMaxOrigOf_eq {w : WMIBO} {sol : Solution} {L : ℚ}
    (hL : linObjOf w sol = some L) :
    totalMaxOrigOf w sol = some (L - penaltyOf w sol) := by
  rw [totalMaxOrigOf, hL]
  rfl

lemma bestOf_mem (rep tm ti tmo : ℚ) :
    bestOf rep tm ti tmo
      ∈ ([("total_min", tm), ("total_internal", ti), ("total_max_original", tmo)]
          : List (String × ℚ)) := by
  unfold bestOf
  simp only [minByAbsErr]
  split_ifs <;> simp

lemma bestOf_err (rep tm ti tmo : ℚ) :
    |(bestOf rep tm ti tmo).2 - rep|
      = min (min |tm - rep| |ti - rep|) |tmo - rep| := by
  unfold bestOf
  simp only [minByAbsErr]
  split_ifs with h1 h2 h3 <;>
    · simp only [min_def]
      split_ifs <;> first | rfl | linarith

end WMIBOV

namespace WMIBOV

/-! ## Indicator-binding lemmas (source lines 229-238) -/

/-- The literals that the `ind` declarations in `entries` bind to `cid`,
in file order. -/
def litsFor (cid : String) (entries : List ((ℕ × Bool) × String)) : List (ℕ × Bool) :=
  (entries.filter (fun e => e.2 == cid)).map (fun e => e.1)

/-- The evolution of one constraint id's binding along its own literal
sequence: the projection of `indBind` to a single key. -/
def bindSeq (cur : Option IndicatorVal) : List (ℕ × Bool) → Option IndicatorVal
  | [] => cur
  | l :: ls =>
      match cur with
      | some v =>
          if v ≠ IndicatorVal.lit l.1 l.2 then bindSeq (some IndicatorVal.conflict) ls
          else bindSeq (some (IndicatorVal.lit l.1 l.2)) ls
      | none => bindSeq (some (IndicatorVal.lit l.1 l.2)) ls

lemma indBind_ne (m : String → Option IndicatorVal) (lit : ℕ × Bool) (cid c : String)
    (h : c ≠ cid) : indBind m lit cid c = m c := by
  cases hm : m cid with
  | none => simp [indBind, hm, updateFn, h]
  | some v =>
    by_cases hv : v ≠ IndicatorVal.lit lit.1 lit.2
    · simp [indBind, hm, hv, updateFn, h]
    · simp [indBind, hm, hv, updateFn, h]

lemma indBind_at (m : String → Option IndicatorVal) (lit : ℕ × Bool) (cid : String) :
    indBind m lit cid cid
      = (match m cid with
         | some v =>
             if v ≠ IndicatorVal.lit lit.1 lit.2 then some IndicatorVal.conflict
             else some (IndicatorVal.lit lit.1 lit.2)
         | none => some (IndicatorVal.lit lit.1 lit.2)) := by
  cases hm : m cid with
  | none => simp [indBind, hm, updateFn]
  | some v =>
    by_cases hv : v ≠ IndicatorVal.lit lit.1 lit.2
    · simp [indBind, hm, hv, updateFn]
    · simp [indBind, hm, hv, updateFn]

lemma bindSeq_conflict : ∀ ls : List (ℕ × Bool),
    bindSeq (some IndicatorVal.conflict) ls = some IndicatorVal.conflict := by
  intro ls
  induction ls with
  | nil => rfl
  | cons l ls ih => simp [bindSeq, ih]

lemma bindSeq_from_lit : ∀ (ls : List (ℕ × Bool)) (a : ℕ × Bool),
    bindSeq (some (IndicatorVal.lit a.1 a.2)) ls
      = (if ∀ x ∈ ls, x = a then some (IndicatorVal.lit a.1 a.2)
         else some IndicatorVal.conflict) := by
  intro ls
  induction ls with
  | nil => intro a; simp [bindSeq]
  | cons l ls ih =>
    intro a
    have hcons : (∀ x ∈ l :: ls, x = a) ↔ (l = a ∧ ∀ x ∈ ls, x = a) :=
      List.forall_mem_cons
    by_cases hla : l = a
    · subst hla
      have hne : ¬(IndicatorVal.lit l.1 l.2 ≠ IndicatorVal.lit l.1 l.2) := by simp
      simp only [bindSeq, if_neg hne]
      rw [ih l]
      by_cases hc : ∀ x ∈ ls, x = l
      · rw [if_pos hc, if_pos (hcons.mpr ⟨rfl, hc⟩)]
      · rw [if_neg hc, if_neg (fun hh => hc (hcons.mp hh).2)]
    · have hne : IndicatorVal.lit a.1 a.2 ≠ IndicatorVal.lit l.1 l.2 := by
        intro hh
        apply hla
        injection hh with h1 h2
        exact Prod.ext_iff.mpr ⟨h1.symm, h2.symm⟩
      simp only [bindSeq, if_pos hne]
      rw [bindSeq_conflict, if_neg]
      intro hall
      exact hla (hall l (List.mem_cons_self _ _))

lemma indFold_proj (cid : String) :
    ∀ (entries : List ((ℕ × Bool) × String)) (m : String → Option IndicatorVal),
      indFold m entries cid = bindSeq (m cid) (litsFor cid entries) := by
  intro entries
  induction entries with
  | nil => intro m; rfl
  | cons e rest ih =>
    intro m
    show indFold (indBind m e.1 e.2) rest cid = _
    rw [ih]
    by_cases hc : e.2 = cid
    · subst hc
      have hf : litsFor e.2 (e :: rest) = e.1 :: litsFor e.2 rest := by
        simp [litsFor, List.filter_cons]
      rw [hf, indBind_at]
      cases hm : m e.2 with
      | none => simp [bindSeq]
      | some v =>
        by_cases hv : v ≠ IndicatorVal.lit e.1.1 e.1.2
        · simp only [if_pos hv]
          have : bindSeq (some v) (e.1 :: litsFor e.2 rest)
              = bindSeq (some IndicatorVal.conflict) (litsFor e.2 rest) := by
            simp only [bindSeq, if_pos hv]
          rw [this]
        · simp only [if_neg hv]
          have : bindSeq (some v) (e.1 :: litsFor e.2 rest)
              = bindSeq (some (IndicatorVal.lit e.1.1 e.1.2)) (litsFor e.2 rest) := by
            simp only [bindSeq, if_neg hv]
          rw [this]
    · have hp : (e.2 == cid) = false := beq_eq_false_iff_ne.mpr hc
      have hf : litsFor cid (e :: rest) = litsFor cid rest := by
        simp [litsFor, List.filter_cons, hp]
      have hb : indBind m e.1 e.2 cid = m cid :=
        indBind_ne m e.1 e.2 cid (fun h => hc h.symm)
      rw [hf, hb]

lemma mem_litsFor (x : ℕ × Bool) (cid : String)
    (entries : List ((ℕ × Bool) × String)) :
    x ∈ litsFor cid entries ↔ (x, cid) ∈ entries := by
  simp only [litsFor, List.mem_map, List.mem_filter, beq_iff_eq]
  constructor
  · rintro ⟨e, ⟨he, h2⟩, h1⟩
    have : e = (x, cid) := Prod.ext_iff.mpr ⟨h1, h2⟩
    rw [this] at he
    exact he
  · intro h
    exact ⟨(x, cid), ⟨h, rfl⟩, rfl⟩

lemma bindSeq_none_conflict_iff : ∀ ls : List (ℕ × Bool),
    bindSeq none ls = some IndicatorVal.conflict ↔ ∃ x ∈ ls, ∃ y ∈ ls, x ≠ y := by
  intro ls
  cases ls with
  | nil => simp [bindSeq]
  | cons l ls =>
    have h0 : bindSeq none (l :: ls) = bindSeq (some (IndicatorVal.lit l.1 l.2)) ls := by
      simp [bindSeq]
    rw [h0, bindSeq_from_lit ls l]
    by_cases hall : ∀ x ∈ ls, x = l
    · rw [if_pos hall]
      constructor
      · intro h
        cases h
      · rintro ⟨x, hx, y, hy, hxy⟩
        have hx' : x = l := by
          rcases List.mem_cons.mp hx with h | h
          · exact h
          · exact hall x h
        have hy' : y = l := by
          rcases List.mem_cons.mp hy with h | h
          · exact h
          · exact hall y h
        exact absurd (hx'.trans hy'.symm) hxy
    · rw [if_neg hall]
      constructor
      · intro _
        push_neg at hall
        obtain ⟨x, hx, hxl⟩ := hall
        exact ⟨x, List.mem_cons_of_mem _ hx, l, List.mem_cons_self _ _, hxl⟩
      · intro _
        rfl

end WMIBOV

namespace WMIBOV

/-! ## Only the reconciler can emit an objective-mismatch diagnostic -/

lemma domErrsOf_notMM (w : WMIBO) (sol : Solution) :
    ∀ e ∈ domErrsOf w sol, strStartsWith e "objective mismatch" = false := by
  intro e he
  unfold domErrsOf at he
  simp only [List.mem_append, List.mem_flatMap] at he
  rcases he with ⟨k, _, hk⟩ | ⟨k, _, hk⟩ | ⟨k, _, hk⟩
  · exact boolCheck_notMM sol k e hk
  · exact intCheck_notMM w (intTolOf w) sol k e hk
  · exact realCheck_notMM w (feasTolOf w) sol k e hk

lemma hardErrsOf_notMM (w : WMIBO) (sol : Solution) :
    ∀ e ∈ hardErrsOf w sol, strStartsWith e "objective mismatch" = false := by
  intro e he
  unfold hardErrsOf at he
  rcases List.mem_append.mp he with h | h
  · exact hardErrsAux_notMM "CNF" sol 1 w.cnf_hard e h
  · exact hardErrsAux_notMM "WCNF" sol 1 w.wcnf_hard e h

lemma softErrsOf_notMM (w : WMIBO) (sol : Solution) :
    ∀ e ∈ softErrsOf w sol, strStartsWith e "objective mismatch" = false := by
  intro e he
  unfold softErrsOf at he
  rcases List.mem_append.mp he with h | h
  · exact softAux_notMM "CNF" sol (fun _ => 1) 1 w.cnf_soft e h
  · exact softAux_notMM "WCNF" sol (fun cl => (cl.weight : ℚ)) 1 w.wcnf_soft e h

/-- Any diagnostic of a validation run that carries the objective-mismatch
prefix was emitted by the reconciler. -/
lemma validateErrs_MM_mem (w : WMIBO) (sol : Solution) :
    ∀ e ∈ validateErrs w sol, strStartsWith e "objective mismatch" = true →
      e ∈ mismatchErrsOf w sol := by
  intro e he hpre
  unfold validateErrs at he
  simp only [List.mem_append] at he
  rcases he with he | he | he | he | he | he
  · rw [domErrsOf_notMM w sol e he] at hpre
    cases hpre
  · rw [hardErrsOf_notMM w sol e he] at hpre
    cases hpre
  · rw [softErrsOf_notMM w sol e he] at hpre
    cases hpre
  · rw [linConstrErrs_notMM w (feasTolOf w) sol w.lin e he] at hpre
    cases hpre
  · rw [objErrsOf_notMM w sol e he] at hpre
    cases hpre
  · exact he

end WMIBOV

namespace WMIBOV

/-! ## Example fixtures used by witnesses and counterexamples -/

/-- An empty problem: header counts 0, no clauses, no constraints, no
objective, default options. -/
def wEmpty : WMIBO :=
  { B := 0, I := 0, R := 0, vars := fun _ => none, cnf_hard := [], cnf_soft := [],
    wcnf_hard := [], wcnf_soft := [], lin := [], ind := fun _ => none,
    obj_sense := none, obj_terms := [], opts := fun _ => none }

/-- The empty assignment. -/
def solEmpty : Solution := { status := none, reported_obj := none, model := fun _ => none }

/-- An assignment that sets only `b2 = 1` and leaves `b1` unassigned. -/
def solC1 : Solution :=
  { status := none, reported_obj := none,
    model := fun s => if s = "b2" then some 1 else none }

/-- An assignment with `b1 = 0` and `b2 = 1`. -/
def solC1w : Solution :=
  { status := none, reported_obj := none,
    model := fun s => if s = "b1" then some 0 else if s = "b2" then some 1 else none }

/-! ## The claims -/

/-- C1, counterexample: permuting a clause's literals can change the
result of clause evaluation.  With only `b2 = 1` assigned, the clause
`b1 b2` evaluates to UNKNOWN (`none`) because evaluation stops at the
first missing variable, while the permuted clause `b2 b1` evaluates to
TRUE — so clause evaluation is not literal-order independent. -/
lemma lv_solC1_2 : lit_value solC1 2 false = some 1 := by
  have hg : get_model_value solC1 "b" ((2 : ℕ) : ℤ) = some 1 := rfl
  simp only [lit_value, hg]
  norm_num

theorem C1_cex :
    (([((2 : ℕ), false), ((1 : ℕ), false)] : List (ℕ × Bool)).Perm
        [((1 : ℕ), false), ((2 : ℕ), false)])
    ∧ clause_satisfied solC1
        { hard := true, weight := 1, lits := [((1 : ℕ), false), ((2 : ℕ), false)] } = none
    ∧ clause_satisfied solC1
        { hard := true, weight := 1, lits := [((2 : ℕ), false), ((1 : ℕ), false)] }
        = some true := by
  refine ⟨by decide, by rfl, ?_⟩
  show clauseSatAux solC1 [((2 : ℕ), false), ((1 : ℕ), false)] = some true
  simp [clauseSatAux, lv_solC1_2]

/-- C1 (amended): clause evaluation is literal-order independent on every
assignment in which each literal's boolean variable is present, and also
whenever no literal evaluates to true; only a clause mixing a missing
variable with a true literal is order sensitive. -/
theorem C1_thm (sol : Solution) (cl cl2 : Clause) (hp : cl2.lits.Perm cl.lits)
    (hcase : (∀ l ∈ cl.lits, lit_value sol l.1 l.2 ≠ none)
      ∨ (∀ l ∈ cl.lits, lit_value sol l.1 l.2 ≠ some 1)) :
    clause_satisfied sol cl2 = clause_satisfied sol cl := by
  unfold clause_satisfied
  rcases hcase with hall | hnt
  · have hall2 : ∀ l ∈ cl2.lits, lit_value sol l.1 l.2 ≠ none :=
      fun l hl => hall l (hp.subset hl)
    rw [clauseSatAux_all_present sol _ hall2, clauseSatAux_all_present sol _ hall]
    have hany : cl2.lits.any (fun l => lit_value sol l.1 l.2 == some 1)
        = cl.lits.any (fun l => lit_value sol l.1 l.2 == some 1) := by
      cases hA : cl.lits.any (fun l => lit_value sol l.1 l.2 == some 1) with
      | true =>
        rw [List.any_eq_true] at hA
        obtain ⟨x, hx, hfx⟩ := hA
        exact List.any_eq_true.mpr ⟨x, hp.mem_iff.mpr hx, hfx⟩
      | false =>
        rw [List.any_eq_false] at hA
        refine List.any_eq_false.mpr ?_
        intro x hx
        exact hA x (hp.subset hx)
    rw [hany]
  · have hnt2 : ∀ l ∈ cl2.lits, lit_value sol l.1 l.2 ≠ some 1 :=
      fun l hl => hnt l (hp.subset hl)
    rw [clauseSatAux_no_true sol _ hnt2, clauseSatAux_no_true sol _ hnt]
    by_cases hcn : ∀ l ∈ cl.lits, lit_value sol l.1 l.2 ≠ none
    · rw [if_pos hcn, if_pos (fun l hl => hcn l (hp.subset hl))]
    · rw [if_neg hcn, if_neg (fun hh => hcn (fun l hl => hh l (hp.symm.subset hl)))]

/-- C1 witness: the amended theorem applied to the clauses of the
counterexample under the total assignment `b1 = 0, b2 = 1`. -/
lemma lv_solC1w_1 : lit_value solC1w 1 false = some 0 := by
  have hg : get_model_value solC1w "b" ((1 : ℕ) : ℤ) = some 0 := rfl
  simp only [lit_value, hg]
  norm_num

lemma lv_solC1w_2 : lit_value solC1w 2 false = some 1 := by
  have hg : get_model_value solC1w "b" ((2 : ℕ) : ℤ) = some 1 := rfl
  simp only [lit_value, hg]
  norm_num

theorem C1_witness :
    clause_satisfied solC1w
        { hard := true, weight := 1, lits := [((2 : ℕ), false), ((1 : ℕ), false)] }
      = clause_satisfied solC1w
          { hard := true, weight := 1, lits := [((1 : ℕ), false), ((2 : ℕ), false)] } :=
  C1_thm solC1w _ _ (by decide)
    (Or.inl (by
      intro l hl
      rcases List.mem_cons.mp hl with h | h
      · subst h
        simp [lv_solC1w_1]
      · rcases List.mem_singleton.mp h with rfl
        simp [lv_solC1w_2]))

/-- C3: with `L` the evaluated linear-objective value and `P` the total
penalty, the candidate totals satisfy `total_min = L + P` always,
`total_internal = total_min` when the declared sense is not maximize,
`total_internal = -L + P` when it is maximize, and
`total_max_original = L - P` always. -/
theorem C3_thm (w : WMIBO) (sol : Solution) (L : ℚ)
    (hL : (validateStats w sol).lin_obj = some L) :
    (validateStats w sol).total_min = some (L + (validateStats w sol).penalty)
    ∧ (w.obj_sense ≠ some "max" →
        (validateStats w sol).total_internal = (validateStats w sol).total_min)
    ∧ (w.obj_sense = some "max" →
        (validateStats w sol).total_internal = some (-L + (validateStats w sol).penalty))
    ∧ (validateStats w sol).total_max_original
        = some (L - (validateStats w sol).penalty) := by
  have hL' : linObjOf w sol = some L := hL
  refine ⟨?_, ?_, ?_, ?_⟩
  · exact totalMinOf_eq hL'
  · intro h
    show totalInternalOf w sol = totalMinOf w sol
    unfold totalInternalOf
    rw [if_neg h]
  · intro h
    show totalInternalOf w sol = some (-L + penaltyOf w sol)
    unfold totalInternalOf
    rw [if_pos h, hL']
    rfl
  · exact totalMaxOrigOf_eq hL'

/-- C3 witness: the empty problem evaluates the (absent) objective to 0
with penalty 0, and all three candidate totals follow the formulas. -/
theorem C3_witness :
    (validateStats wEmpty solEmpty).lin_obj = some 0
    ∧ (validateStats wEmpty solEmpty).total_min
        = some (0 + (validateStats wEmpty solEmpty).penalty)
    ∧ (validateStats wEmpty solEmpty).total_max_original
        = some (0 - (validateStats wEmpty solEmpty).penalty) :=
  ⟨rfl, (C3_thm wEmpty solEmpty 0 rfl).1, (C3_thm wEmpty solEmpty 0 rfl).2.2.2⟩

/-- C5: validation returns `ok = true` exactly when the diagnostic list
contains no fatal message, a diagnostic being a warning exactly when it
starts with the warning prefix; warnings never affect the flag. -/
theorem C5_thm (w : WMIBO) (sol : Solution) :
    (validate w sol).1 = true
      ↔ ∀ e ∈ (validate w sol).2.1, strStartsWith e "warning:" = true := by
  show ((validateErrs w sol).filter isFatal).isEmpty = true ↔ _
  rw [List.isEmpty_iff, List.filter_eq_nil_iff]
  unfold isFatal
  constructor
  · intro h e he
    have := h e he
    simp only [Bool.not_eq_true', Bool.not_eq_false] at this
    exact this
  · intro h e he
    simp only [Bool.not_eq_true', Bool.not_eq_false]
    exact h e he

end WMIBOV

namespace WMIBOV

/-- An assignment that reports objective value 0 and assigns nothing. -/
def solRep : Solution := { status := none, reported_obj := some 0, model := fun _ => none }

/-- C2: when the parsed solution reports an objective value, validation
selects among the three candidate totals the one with smallest absolute
difference to the reported value, records its name, value and absolute
error in the statistics, and emits a fatal objective-mismatch diagnostic
exactly when that smallest difference exceeds `tolObj = 1e-6`; with no
reported value, no mismatch diagnostic is emitted and the three candidate
totals are still recorded. -/
theorem C2_thm (w : WMIBO) (sol : Solution) :
    (∀ rep L, sol.reported_obj = some rep → (validateStats w sol).lin_obj = some L →
      ∃ tm ti tmo,
        (validateStats w sol).total_min = some tm
        ∧ (validateStats w sol).total_internal = some ti
        ∧ (validateStats w sol).total_max_original = some tmo
        ∧ (validateStats w sol).reported_obj = some rep
        ∧ (validateStats w sol).best_match = some (bestOf rep tm ti tmo).1
        ∧ (validateStats w sol).best_match_value = some (bestOf rep tm ti tmo).2
        ∧ (validateStats w sol).best_abs_error = some |(bestOf rep tm ti tmo).2 - rep|
        ∧ bestOf rep tm ti tmo
            ∈ ([("total_min", tm), ("total_internal", ti), ("total_max_original", tmo)]
                : List (String × ℚ))
        ∧ |(bestOf rep tm ti tmo).2 - rep| = min (min |tm - rep| |ti - rep|) |tmo - rep|
        ∧ ((∃ e ∈ validateErrs w sol,
              strStartsWith e "objective mismatch" = true ∧ isFatal e = true)
            ↔ tolObj < min (min |tm - rep| |ti - rep|) |tmo - rep|))
    ∧ (sol.reported_obj = none →
        (¬ ∃ e ∈ validateErrs w sol, strStartsWith e "objective mismatch" = true)
        ∧ (validateStats w sol).total_min = totalMinOf w sol
        ∧ (validateStats w sol).total_internal = totalInternalOf w sol
        ∧ (validateStats w sol).total_max_original = totalMaxOrigOf w sol) := by
  constructor
  · intro rep L hrep hL
    have hL' : linObjOf w sol = some L := hL
    have hr : sol.reported_obj = some rep := hrep
    have htm := totalMinOf_eq hL'
    have hti := totalInternalOf_eq hL'
    have htmo := totalMaxOrigOf_eq hL'
    refine ⟨L + penaltyOf w sol,
      (if w.obj_sense = some "max" then -L + penaltyOf w sol else L + penaltyOf w sol),
      L - penaltyOf w sol, htm, hti, htmo, ?_, ?_, ?_, ?_, bestOf_mem _ _ _ _,
      bestOf_err _ _ _ _, ?_⟩
    case _ =>
      show (bestFieldsOf w sol).1 = some rep
      unfold bestFieldsOf
      rw [hr, htm, hti, htmo]
    case _ =>
      show (bestFieldsOf w sol).2.1 = _
      unfold bestFieldsOf
      rw [hr, htm, hti, htmo]
    case _ =>
      show (bestFieldsOf w sol).2.2.1 = _
      unfold bestFieldsOf
      rw [hr, htm, hti, htmo]
    case _ =>
      show (bestFieldsOf w sol).2.2.2 = _
      unfold bestFieldsOf
      rw [hr, htm, hti, htmo]
    case _ =>
      have hmm : mismatchErrsOf w sol
          = (if |(bestOf rep (L + penaltyOf w sol)
                  (if w.obj_sense = some "max" then -L + penaltyOf w sol
                   else L + penaltyOf w sol) (L - penaltyOf w sol)).2 - rep| > tolObj
             then [msgMismatch rep
                    (bestOf rep (L + penaltyOf w sol)
                      (if w.obj_sense = some "max" then -L + penaltyOf w sol
                       else L + penaltyOf w sol) (L - penaltyOf w sol)).1
                    (bestOf rep (L + penaltyOf w sol)
                      (if w.obj_sense = some "max" then -L + penaltyOf w sol
                       else L + penaltyOf w sol) (L - penaltyOf w sol)).2]
             else []) := by
        unfold mismatchErrsOf
        rw [hr, htm, hti, htmo]
      constructor
      · rintro ⟨e, he, hpre, _⟩
        have hm := validateErrs_MM_mem w sol e he hpre
        rw [hmm] at hm
        by_cases hgt : |(bestOf rep (L + penaltyOf w sol)
            (if w.obj_sense = some "max" then -L + penaltyOf w sol
             else L + penaltyOf w sol) (L - penaltyOf w sol)).2 - rep| > tolObj
        · rw [bestOf_err] at hgt
          exact hgt
        · rw [if_neg hgt] at hm
          cases hm
      · intro hgt
        have hgt' : |(bestOf rep (L + penaltyOf w sol)
            (if w.obj_sense = some "max" then -L + penaltyOf w sol
             else L + penaltyOf w sol) (L - penaltyOf w sol)).2 - rep| > tolObj := by
          rw [bestOf_err]
          exact hgt
        refine ⟨msgMismatch rep
            (bestOf rep (L + penaltyOf w sol)
              (if w.obj_sense = some "max" then -L + penaltyOf w sol
               else L + penaltyOf w sol) (L - penaltyOf w sol)).1
            (bestOf rep (L + penaltyOf w sol)
              (if w.obj_sense = some "max" then -L + penaltyOf w sol
               else L + penaltyOf w sol) (L - penaltyOf w sol)).2,
          ?_, startsWith_msgMismatch _ _ _, ?_⟩
        · unfold validateErrs
          simp only [List.mem_append]
          right; right; right; right; right
          rw [hmm, if_pos hgt']
          exact List.mem_singleton_self _
        · unfold isFatal
          rw [notWarn_of_head (head_msgMismatch _ _ _) (by decide)]
          rfl
  · intro hr
    refine ⟨?_, rfl, rfl, rfl⟩
    rintro ⟨e, he, hpre⟩
    have hm := validateErrs_MM_mem w sol e he hpre
    have hnil : mismatchErrsOf w sol = [] := by
      unfold mismatchErrsOf
      rw [hr]
    rw [hnil] at hm
    cases hm

/-- C2 witness: the empty problem with reported objective 0 records the
reported value in the statistics. -/
theorem C2_witness : (validateStats wEmpty solRep).reported_obj = some (0 : ℚ) := by
  obtain ⟨tm, ti, tmo, _, _, _, hrep, _⟩ := (C2_thm wEmpty solRep).1 0 0 rfl rfl
  exact hrep

end WMIBOV

namespace WMIBOV

/-- A problem whose only indicator binding marks constraint `c1` as
conflicting. -/
def wConf : WMIBO :=
  { wEmpty with ind := fun c => if c = "c1" then some IndicatorVal.conflict else none }

/-- A linear constraint with id `c1` and no terms. -/
def lcEx : LinConstr := { cid := "c1", sense := "<=", rhs := 0, terms := [] }

/-- C4: during validation of a linear constraint id, no binding means the
constraint is unconditionally active with no indicator diagnostic; a
CONFLICT binding skips the check and emits the fatal conflicting-indicators
diagnostic; a literal whose variable is unassigned skips the check and
emits the fatal missing-indicator-variable diagnostic; otherwise the
constraint is checked exactly when the literal evaluates to 1 under
`lit_value`, the same rounding-and-negation rule used for clause
literals. -/
theorem C4_thm (w : WMIBO) (ft : ℚ) (sol : Solution) (cid : String) (lc : LinConstr) :
    (w.ind cid = none →
      is_active_constraint w sol cid = (true, none)
      ∧ checkLinConstr w ft sol cid lc = linBodyErrs ft sol lc)
    ∧ (w.ind cid = some IndicatorVal.conflict →
      checkLinConstr w ft sol cid lc = [msgConflictInd cid]
      ∧ isFatal (msgConflictInd cid) = true)
    ∧ (∀ bi neg, w.ind cid = some (IndicatorVal.lit bi neg) →
        lit_value sol bi neg = none →
        checkLinConstr w ft sol cid lc = [msgMissingInd bi cid]
        ∧ isFatal (msgMissingInd bi cid) = true)
    ∧ (∀ bi neg t, w.ind cid = some (IndicatorVal.lit bi neg) →
        lit_value sol bi neg = some t →
        is_active_constraint w sol cid = (decide (t = 1), none)
        ∧ checkLinConstr w ft sol cid lc
            = (if t = 1 then linBodyErrs ft sol lc else [])) := by
  refine ⟨?_, ?_, ?_, ?_⟩
  · intro h
    have ha : is_active_constraint w sol cid = (true, none) := by
      simp only [is_active_constraint, h]
    refine ⟨ha, ?_⟩
    simp only [checkLinConstr, ha]
    simp
  · intro h
    have ha : is_active_constraint w sol cid = (false, some (msgConflictInd cid)) := by
      simp only [is_active_constraint, h]
    refine ⟨by simp only [checkLinConstr, ha], ?_⟩
    unfold isFatal
    rw [notWarn_of_head (head_msgConflictInd cid) (by decide)]
    rfl
  · intro bi neg h hlv
    have ha : is_active_constraint w sol cid = (false, some (msgMissingInd bi cid)) := by
      simp only [is_active_constraint, h, hlv]
    refine ⟨by simp only [checkLinConstr, ha], ?_⟩
    unfold isFatal
    rw [notWarn_of_head (head_msgMissingInd bi cid) (by decide)]
    rfl
  · intro bi neg t h hlv
    have ha : is_active_constraint w sol cid = (decide (t = 1), none) := by
      simp only [is_active_constraint, h, hlv]
    refine ⟨ha, ?_⟩
    by_cases ht : t = 1
    · simp only [checkLinConstr, ha, ht]
      simp
    · simp only [checkLinConstr, ha]
      simp [ht]

/-- C4 witness: the CONFLICT case of the theorem at a concrete instance
with a conflicting binding for `c1`. -/
theorem C4_witness :
    checkLinConstr wConf 0 solEmpty "c1" lcEx = [msgConflictInd "c1"]
    ∧ isFatal (msgConflictInd "c1") = true :=
  (C4_thm wConf 0 solEmpty "c1" lcEx).2.1 rfl

/-- C6: a constraint id's binding after parsing the ind block is the
CONFLICT sentinel exactly when two ind declarations bind different
literals to that id; re-binding the identical literal leaves the binding
unchanged; and once CONFLICT, no later declaration restores a literal. -/
theorem C6_thm (entries : List ((ℕ × Bool) × String)) (cid : String) :
    (indFold (fun _ => none) entries cid = some IndicatorVal.conflict ↔
      ∃ l1, ((l1, cid) ∈ entries ∧ ∃ l2, ((l2, cid) ∈ entries ∧ l1 ≠ l2)))
    ∧ (∀ (m : String → Option IndicatorVal) (lit : ℕ × Bool),
        m cid = some (IndicatorVal.lit lit.1 lit.2) → indBind m lit cid = m)
    ∧ (∀ (m : String → Option IndicatorVal) (rest : List ((ℕ × Bool) × String)),
        m cid = some IndicatorVal.conflict →
          indFold m rest cid = some IndicatorVal.conflict) := by
  refine ⟨?_, ?_, ?_⟩
  · rw [indFold_proj cid entries (fun _ => none)]
    rw [bindSeq_none_conflict_iff]
    constructor
    · rintro ⟨x, hx, y, hy, hxy⟩
      exact ⟨x, (mem_litsFor x cid entries).mp hx, y, (mem_litsFor y cid entries).mp hy, hxy⟩
    · rintro ⟨l1, h1, l2, h2, hne⟩
      exact ⟨l1, (mem_litsFor l1 cid entries).mpr h1, l2, (mem_litsFor l2 cid entries).mpr h2, hne⟩
  · intro m lit hm
    funext c
    by_cases hc : c = cid
    · subst hc
      rw [indBind_at]
      simp [hm]
    · exact indBind_ne m lit cid c hc
  · intro m rest hm
    rw [indFold_proj cid rest m, hm, bindSeq_conflict]

/-- C6 witness: two ind declarations binding the different literals `b1`
and `b2` to constraint `c1` leave its binding CONFLICT. -/
theorem C6_witness :
    indFold (fun _ => none) [(((1 : ℕ), false), "c1"), (((2 : ℕ), false), "c1")] "c1"
      = some IndicatorVal.conflict :=
  (C6_thm _ "c1").1.mpr ⟨(1, false), by simp, (2, false), by simp, by decide⟩

/-- The declaration `var i 1 [0,10]` as parsed. -/
def declI : VarDecl := { kind := "i", idx := 1, lo := 0, hi := 10 }

/-- A problem with one integer variable declared with bounds 0 to 10. -/
def wI : WMIBO :=
  { wEmpty with I := 1, vars := fun p => if p = ("i", (1 : ℤ)) then some declI else none }

/-- An assignment with `i1 = 5` only. -/
def solI : Solution :=
  { status := none, reported_obj := none,
    model := fun s => if s = "i1" then some 5 else none }

/-- C7: an integer variable with assigned value v and a declaration with
bounds lo, hi produces no fatal diagnostic if and only if v is within the
integrality tolerance of its nearest integer and lies in the inclusive
interval from lo - t to hi + t. -/
theorem C7_thm (w : WMIBO) (t : ℚ) (sol : Solution) (k : ℕ) (v : ℚ) (decl : VarDecl)
    (hv : get_model_value sol "i" (k : ℤ) = some v)
    (hd : w.vars ("i", (k : ℤ)) = some decl) :
    (∀ e ∈ intCheck w t sol k, strStartsWith e "warning:" = true)
      ↔ (|v - (round v : ℚ)| ≤ t ∧ decl.lo - t ≤ v ∧ v ≤ decl.hi + t) := by
  have hck : intCheck w t sol k
      = (if |v - (round v : ℚ)| > t then [msgNotIntegral k t v] else [])
        ++ (if v < decl.lo - t ∨ v > decl.hi + t then [msgIntBounds k decl.lo decl.hi v]
            else []) := by
    simp only [intCheck, hv, hd]
  rw [hck]
  constructor
  · intro h
    refine ⟨?_, ?_, ?_⟩
    · by_contra hgt
      rw [not_le] at hgt
      have hmem : msgNotIntegral k t v
          ∈ (if |v - (round v : ℚ)| > t then [msgNotIntegral k t v] else [])
            ++ (if v < decl.lo - t ∨ v > decl.hi + t then [msgIntBounds k decl.lo decl.hi v]
                else []) := by
        rw [if_pos hgt]
        exact List.mem_append_left _ (List.mem_singleton_self _)
      have hw := h _ hmem
      rw [notWarn_of_head (head_msgNotIntegral k t v) (by decide)] at hw
      cases hw
    · by_contra hlo
      rw [not_le] at hlo
      have hmem : msgIntBounds k decl.lo decl.hi v
          ∈ (if |v - (round v : ℚ)| > t then [msgNotIntegral k t v] else [])
            ++ (if v < decl.lo - t ∨ v > decl.hi + t then [msgIntBounds k decl.lo decl.hi v]
                else []) := by
        refine List.mem_append_right _ ?_
        rw [if_pos (Or.inl hlo)]
        exact List.mem_singleton_self _
      have hw := h _ hmem
      rw [notWarn_of_head (head_msgIntBounds k decl.lo decl.hi v) (by decide)] at hw
      cases hw
    · by_contra hhi
      rw [not_le] at hhi
      have hmem : msgIntBounds k decl.lo decl.hi v
          ∈ (if |v - (round v : ℚ)| > t then [msgNotIntegral k t v] else [])
            ++ (if v < decl.lo - t ∨ v > decl.hi + t then [msgIntBounds k decl.lo decl.hi v]
                else []) := by
        refine List.mem_append_right _ ?_
        rw [if_pos (Or.inr hhi)]
        exact List.mem_singleton_self _
      have hw := h _ hmem
      rw [notWarn_of_head (head_msgIntBounds k decl.lo decl.hi v) (by decide)] at hw
      cases hw
  · rintro ⟨h1, h2, h3⟩ e he
    rw [if_neg (not_lt.mpr h1), if_neg (not_or.mpr ⟨not_lt.mpr h2, not_lt.mpr h3⟩)] at he
    cases he

/-- C7 witness: the declared integer variable `i1` with value 5, bounds
0 to 10 and tolerance 1 passes all integer checks. -/
theorem C7_witness :
    (intCheck wI 1 solI 1).all (fun e => strStartsWith e "warning:") = true := by
  have h := (C7_thm wI 1 solI 1 5 declI rfl rfl).mpr (by norm_num [declI, round_eq])
  exact List.all_eq_true.mpr (fun e he => h e he)

end WMIBOV

namespace WMIBOV

/-- C8 counterexample: the malformed line `opt x` does abort instance
parsing — `line.split(maxsplit=2)` yields two pieces and the three-name
unpacking raises, so a malformed opt line is not always ignored. -/
theorem C8_cex :
    optStep (fun _ => none) (fun _ => none) "opt x"
      = Except.error "not enough values to unpack" := rfl

/-- C8 (amended): an opt line splitting into three pieces whose value
piece is not numeric never causes parsing to fail — the option is not set
and parsing continues; but an opt line with only two pieces (a key with
no value) raises a parse error. -/
theorem C8_thm (pf : String → Option ℚ) (opts : String → Option ℚ) (line : String) :
    (∀ a k v, splitMaxsplit2 line = [a, k, v] → pf v = none →
      optStep pf opts line = Except.ok opts)
    ∧ (∀ t1 t2, splitMaxsplit2 line = [t1, t2] →
      optStep pf opts line = Except.error "not enough values to unpack") := by
  constructor
  · intro a k v hs hv
    simp only [optStep, hs, hv]
  · intro t1 t2 hs
    simp only [optStep, hs]

/-- C8 witness: a three-token opt line with a non-numeric value is
ignored, leaving the options unchanged. -/
theorem C8_witness :
    optStep (fun _ => none) (fun _ => none) "opt key abc"
      = Except.ok (fun _ => none) :=
  (C8_thm (fun _ => none) (fun _ => none) "opt key abc").1 "opt" "key" "abc" rfl rfl

/-- C9: solution parsing is total and permissive — an `o` line whose
value does not convert leaves the reported objective unchanged (hence
unset when it was unset); a `v` token without `=` or with a non-numeric
value is skipped; a convertible `v` token overwrites the model entry for
its variable, so a later occurrence of a token wins. -/
theorem C9_thm (pf : String → Option ℚ) :
    (∀ (st : Solution) (line tok : String),
      pyStrip line ≠ "" → strStartsWith (pyStrip line) "s " = false →
      strStartsWith (pyStrip line) "o " = true →
      (splitWs (pyStrip line)).get? 1 = some tok → pf tok = none →
      solStep pf st line = st)
    ∧ (∀ (m : String → Option ℚ) (tok : String) (rest : List String),
        tok.data.contains '=' = false →
        vTokens pf m (tok :: rest) = vTokens pf m rest)
    ∧ (∀ (m : String → Option ℚ) (tok : String) (rest : List String),
        tok.data.contains '=' = true → pf (splitEq1 tok).2 = none →
        vTokens pf m (tok :: rest) = vTokens pf m rest)
    ∧ (∀ (m : String → Option ℚ) (tok : String) (rest : List String) (x : ℚ),
        tok.data.contains '=' = true → pf (splitEq1 tok).2 = some x →
        vTokens pf m (tok :: rest) = vTokens pf (updateFn m (splitEq1 tok).1 x) rest)
    ∧ (∀ (m : String → Option ℚ) (var : String) (x y : ℚ),
        updateFn (updateFn m var x) var y var = some y) := by
  refine ⟨?_, ?_, ?_, ?_, ?_⟩
  · intro st line tok hne hs ho hget hpf
    simp only [solStep, if_neg hne, hs, ho, hget, hpf]
    simp
  · intro m tok rest h
    simp only [vTokens, h]
    simp
  · intro m tok rest h hpf
    simp only [vTokens, h, hpf]
    simp
  · intro m tok rest x h hx
    simp only [vTokens, h, hx]
    simp
  · intro m var x y
    simp [updateFn]

/-- C9 witness: the line `o abc` with an unconvertible value leaves the
empty assignment unchanged. -/
theorem C9_witness :
    solStep (fun _ => none) solEmpty "o abc" = solEmpty :=
  (C9_thm (fun _ => none)).1 solEmpty "o abc" "abc" (by decide) (by decide) (by decide)
    (by decide) rfl

/-- The declaration produced by the spec token `bin` for `var b 1 bin`. -/
def declBin : VarDecl := { kind := "b", idx := 1, lo := 0, hi := 1, binary := true }

/-- A prior declaration already stored for `("b", 1)`. -/
def declOld : VarDecl := { kind := "b", idx := 1, lo := 5, hi := 6 }

/-- A declaration map already holding an entry for `("b", 1)`. -/
def varsOld : String × ℤ → Option VarDecl :=
  fun p => if p = ("b", (1 : ℤ)) then some declOld else none

/-- C10: a well-formed `var` line always succeeds and stores its
declaration at `(kind, index)` regardless of whether that key is already
declared — later declarations silently overwrite earlier ones — in
contrast to the `lc` block, where inserting a constraint under an
existing id is a fatal duplicate error. -/
theorem C10_thm (pf : String → Option ℚ) (vars : String × ℤ → Option VarDecl)
    (line p0 kind idxTok spec : String) (rest : List String) (idx : ℤ) (d : VarDecl)
    (hs : splitWs line = p0 :: kind :: idxTok :: spec :: rest)
    (hi : parseIntPy idxTok = some idx)
    (hm : mkDecl pf kind idx spec = Except.ok d) :
    varStep pf vars line = Except.ok (updateFn vars (kind, idx) d)
    ∧ updateFn vars (kind, idx) d (kind, idx) = some d
    ∧ (∀ (lin : List (String × LinConstr)) (lc : LinConstr),
        lin.any (fun p => p.1 = lc.cid) = true →
        lcInsert lin lc = Except.error ("duplicate linear constraint id: " ++ lc.cid)) := by
  refine ⟨?_, ?_, ?_⟩
  · simp only [varStep, hs, hi, hm]
  · simp [updateFn]
  · intro lin lc hdup
    simp [lcInsert, hdup]

/-- C10 witness: re-declaring `("b", 1)` through `var b 1 bin` succeeds
over a map that already holds a declaration for it, and the stored value
is the new declaration. -/
theorem C10_witness :
    varStep (fun _ => none) varsOld "var b 1 bin"
        = Except.ok (updateFn varsOld ("b", (1 : ℤ)) declBin)
    ∧ updateFn varsOld ("b", (1 : ℤ)) declBin ("b", (1 : ℤ)) = some declBin :=
  ⟨(C10_thm (fun _ => none) varsOld "var b 1 bin" "var" "b" "1" "bin" [] 1 declBin
      rfl rfl rfl).1,
   (C10_thm (fun _ => none) varsOld "var b 1 bin" "var" "b" "1" "bin" [] 1 declBin
      rfl rfl rfl).2.1⟩

end WMIBOV
